import Mathlib

/-!
Verification of the hhd daemon's plugin reconciliation and control loop
(`src/hhd/__main__.py`) against its natural-language specification.

The embedding below translates the control-loop module into Lean:
* `CTree`/`Cfg` model the `Config` value trees (Python nested dicts);
* `updateTree`/`updateEntries` model the recursive merge `Config.update`
  (that method lives in `hhd.plugins`, outside the verified module, so it
  is modelled from the spec's description);
* `Event`, `processEvent` model the event union and the per-event
  dispatch of the control loop (lines 294-314);
* `runGeneration` models one steady-state pass (lines 294-370): event
  processing, validation, the plugin passes, and the save phase;
* `runBus`, `get_events` model the `EmitHolder` event bus;
* `closeAll` models the shutdown unwind in the `finally` block;
* `reloadState` models the state-file fallback logic (lines 190-199);
* `classifyProfiles` models the profile-directory scan (lines 206-219).
-/

/-- A configuration value tree: Python nested dicts with opaque scalar
leaves (leaf payloads are abstracted to `Nat`; the control flow never
inspects them). Association lists keep dict insertion order. -/
inductive CTree where
  | leaf (v : Nat) : CTree
  | node (cs : List (String × CTree)) : CTree

/-- The top-level dict held by a `Config` object (its `.conf` field). -/
abbrev Cfg := List (String × CTree)

/-- Python dict assignment `d[k] = v`: replace the value at an existing key
in place, else append (insertion order). -/
def assocSet : List (String × CTree) → String → CTree → List (String × CTree)
  | [], k, v => [(k, v)]
  | (k2, v2) :: rest, k, v =>
    if k2 = k then (k2, v) :: rest else (k2, v2) :: assocSet rest k v

mutual
/-- Modelled from the spec: `Config.update(partial)` (defined in
`hhd.plugins`, outside the verified module) "recursively merges a partial
tree into an existing one, overwriting only the leaves present in the
partial tree". Dict-with-dict merges recurse; any other combination is
overwritten by the partial tree's value. -/
def updateTree : CTree → CTree → CTree
  | CTree.node old, CTree.node upd => CTree.node (updateEntries old upd)
  | _, upd => upd
termination_by t u => sizeOf u

/-- Merge every entry of the partial dict `upd` into `old`, in order. -/
def updateEntries : List (String × CTree) → List (String × CTree) → List (String × CTree)
  | old, [] => old
  | old, (k, v) :: rest =>
    updateEntries
      (assocSet old k
        (match old.lookup k with
         | some v0 => updateTree v0 v
         | none => v))
      rest
termination_by old upd => sizeOf upd
end

/-- Look a path up in a config tree. -/
def getPath : List String → CTree → Option CTree
  | [], t => some t
  | k :: rest, t =>
    match t with
    | CTree.node cs =>
      match cs.lookup k with
      | some t2 => getPath rest t2
      | none => none
    | CTree.leaf _ => none

/-- `noLeafConflict p upd = true` states that the path `p` is absent from
the partial tree `upd` and that no ancestor of `p` is overwritten by a
scalar of `upd`: the merge walk diverges from `upd` at a missing key
strictly before `p` ends. -/
def noLeafConflict : List String → CTree → Bool
  | _, CTree.leaf _ => false
  | [], CTree.node _ => false
  | k :: rest, CTree.node cs =>
    match cs.lookup k with
    | some t => noLeafConflict rest t
    | none => true

mutual
/-- A well-formed config tree: no duplicate keys at any level (always true
of trees obtained from Python dicts). -/
def treeWF : CTree → Bool
  | CTree.leaf _ => true
  | CTree.node cs => decide ((cs.map Prod.fst).Nodup) && entriesWF cs
termination_by t => sizeOf t

/-- All subtrees of an entry list are well-formed. -/
def entriesWF : List (String × CTree) → Bool
  | [] => true
  | (_, t) :: rest => treeWF t && entriesWF rest
termination_by cs => sizeOf cs
end

/-- A plugin as the control loop sees it: a name and an integer priority
(the set is fixed at startup; `settings/open/prepare/update/close` are
collaborator calls recorded by name in traces below). -/
structure Plugin where
  name : String
  priority : Int
deriving DecidableEq, Repr

/-- The lifecycle invocations the control loop performs on plugins. -/
inductive PluginCall where
  | prepare (name : String)
  | update (name : String)
  | close (name : String)
deriving DecidableEq, Repr

/-- The sort key of line 133: `sorted_plugins.sort(key=lambda x: x.priority)`. -/
def prioLE (a b : Plugin) : Prop := a.priority ≤ b.priority

instance : DecidableRel prioLE := fun a b => Int.decLe a.priority b.priority

instance : IsTotal Plugin prioLE := ⟨fun a b => Int.le_total a.priority b.priority⟩

instance : IsTrans Plugin prioLE := ⟨fun _ _ _ h1 h2 => le_trans h1 h2⟩

/-- Line 133: Python's stable ascending sort by priority. A stable
ascending sort is unique as a function of its input, so insertion sort is
an exact model of `list.sort(key=...)`. -/
def sortPlugins (discovered : List Plugin) : List Plugin :=
  List.insertionSort prioLE discovered

/-- The event union (`Event` in `hhd.plugins`), as consumed by the match
statement of lines 296-314. `other` stands for any unrecognized tag. -/
inductive Event where
  | settings
  | profile (name : String) (config : Cfg)
  | apply (name : String)
  | state (config : Cfg)
  | other (tag : String)

/-- The state mutated while draining one event batch (lines 294-314):
the live config, the shared profiles map, and the `settings_changed`
local. -/
structure EvState where
  conf : Cfg
  profiles : List (String × Cfg)
  settingsChanged : Bool

/-- Python dict assignment for the profiles map (same shape as `assocSet`). -/
def assocSetCfg : List (String × Cfg) → String → Cfg → List (String × Cfg)
  | [], k, v => [(k, v)]
  | (k2, v2) :: rest, k, v =>
    if k2 = k then (k2, v) :: rest else (k2, v2) :: assocSetCfg rest k v

/-- One iteration of the event-processing match (lines 296-314):
`settings` flips the flag; `profile` merges into an existing entry or
inserts fresh; `apply` merges a known profile into the live config and is
a no-op for an unknown name; `state` merges into the live config;
unrecognized tags are only logged. -/
def processEvent (s : EvState) : Event → EvState
  | Event.settings => { s with settingsChanged := true }
  | Event.profile n c =>
    match s.profiles.lookup n with
    | some old => { s with profiles := assocSetCfg s.profiles n (updateEntries old c) }
    | none => { s with profiles := s.profiles ++ [(n, c)] }
  | Event.apply n =>
    match s.profiles.lookup n with
    | some prof => { s with conf := updateEntries s.conf prof }
    | none => s
  | Event.state c => { s with conf := updateEntries s.conf c }
  | Event.other _ => s

/-- The loop state carried between generations. -/
structure LoopState where
  conf : Cfg
  profiles : List (String × Cfg)
  templates : List (String × Cfg)
  shouldInitialize : Bool

/-- Observable outcome of one steady-state generation. -/
structure GenOutput where
  state : LoopState
  /-- the `prepare`/`update` invocations performed, in order -/
  calls : List PluginCall
  /-- filenames passed to `save_state_yaml`/`save_profile_yaml`, in order -/
  saves : List String
  /-- the `saved` local: whether any save reported an actual write -/
  saved : Bool
  /-- the `has_new` local: the flag as read just before the saves (line 346) -/
  hasNew : Bool
  /-- whether the proactive self-trigger clear of lines 367-370 executed -/
  clearedSelf : Bool

/-- One steady-state generation (lines 294-370): drain processing,
mandatory validation of the live config, the optional plugin passes, and
the save phase with self-trigger suppression.

`validate` abstracts `validate_config(conf, settings)` (defined in
`hhd.plugins.settings`, outside the verified module): it may insert
defaults into the live config. `wrote` abstracts the diff-gated return
values of `save_state_yaml`/`save_profile_yaml` per filename. Logging,
permission fix-ups, the HTTP push and the sleeps perform no
state-relevant work and are omitted. -/
def runGeneration (validate : Cfg → Cfg) (sortedPlugins : List Plugin)
    (wrote : String → Bool) (s : LoopState) (events : List Event) : GenOutput :=
  -- lines 294-314: drain processing with settings_changed = False initially
  let es := events.foldl processEvent ⟨s.conf, s.profiles, false⟩
  -- line 317: validate_config(conf, settings)
  let conf2 := validate es.conf
  -- lines 321-322: if settings_changed: should_initialize.set()
  let flagAfterSet := s.shouldInitialize || es.settingsChanged
  -- lines 326-340: plugin passes, skipped entirely when settings changed
  let calls :=
    if es.settingsChanged then []
    else
      (sortedPlugins.reverse.map fun p => PluginCall.prepare p.name) ++
        (sortedPlugins.map fun p => PluginCall.update p.name)
  -- line 346: has_new = should_initialize.is_set()
  let hasNew := flagAfterSet
  -- lines 349-365: state file, one file per profile, then the template file
  let saves :=
    "state.yml" :: ((es.profiles.map fun pr => pr.1 ++ ".yml") ++ ["_template.yml"])
  let saved := saves.any wrote
  -- lines 367-370: if not has_new and saved: should_initialize.clear()
  let cleared := !hasNew && saved
  let flagFinal := if cleared then false else flagAfterSet
  { state :=
      { conf := conf2, profiles := es.profiles, templates := s.templates,
        shouldInitialize := flagFinal },
    calls := calls, saves := saves, saved := saved, hasNew := hasNew,
    clearedSelf := cleared }

/-- One serialized operation on the event bus. Every `EmitHolder` method
body runs entirely under `self._condition`'s lock, so any interleaving of
producer threads and the consumer is a sequence of these atomic
operations. -/
inductive BusOp where
  | emit (e : Event)
  | emitSeq (es : List Event)
  | drain

/-- The events a bus operation appends to the buffer (`__call__`, lines
50-56): one event, or a sequence preserving its internal order. -/
def emittedOf : BusOp → List Event
  | BusOp.emit e => [e]
  | BusOp.emitSeq es => es
  | BusOp.drain => []

/-- Run a serialized operation sequence against the buffer: emits append
under the lock; a drain (`get_events`, lines 58-64) swaps the buffer for
an empty one and returns the previous contents. Returns the list of drain
results, in order, and the final buffer. -/
def runBus (buf : List Event) : List BusOp → List (List Event) × List Event
  | [] => ([], buf)
  | BusOp.emit e :: rest => runBus (buf ++ [e]) rest
  | BusOp.emitSeq es :: rest => runBus (buf ++ es) rest
  | BusOp.drain :: rest => (buf :: (runBus [] rest).1, (runBus [] rest).2)

/-- `EmitHolder.get_events(timeout)` (lines 58-64): blocking mode is
`timeout != -1`; when the buffer is empty in blocking mode the call does a
single `self._condition.wait()` and then returns whatever the buffer
holds. `arrivals` are the events emitted before the wakeup notification:
they are empty when the wakeup came from a signal handler (`notifier`,
lines 71-77, notifies the same condition without emitting) or from a
spurious wakeup. Returns the drained events and the new buffer. -/
def get_events (buf : List Event) (timeout : Int) (arrivals : List Event) :
    List Event × List Event :=
  if buf.isEmpty && timeout != -1 then (buf ++ arrivals, [])
  else (buf, [])

/-- The shutdown unwind over the discovered plugins (lines 398-403): close
each plugin in discovery order. `p.close()` is called with no exception
handler around it, so `closeRaises` tells which calls raise; the result is
the close invocations actually performed and whether an exception escaped
the unwind (aborting the remaining closes). -/
def closeAll (closeRaises : String → Bool) : List Plugin → List PluginCall × Bool
  | [] => ([], false)
  | p :: rest =>
    if closeRaises p.name then ([PluginCall.close p.name], true)
    else
      (PluginCall.close p.name :: (closeAll closeRaises rest).1,
        (closeAll closeRaises rest).2)

/-- The reinitialization state-file load (lines 190-199). `newConf`
abstracts the result of `load_state_yaml` (outside the verified module):
`none` on a missing file, unreadable file, or validation failure. `prev`
is the previous in-memory config (`conf.conf`, initially the empty dict of
line 157); `defaults` abstracts `get_default_state(settings)`. -/
def reloadState (newConf : Option Cfg) (prev : Cfg) (defaults : Cfg) : Cfg :=
  match newConf with
  | some c => c
  | none => if prev.isEmpty then defaults else prev

/-- `fn.endswith(".yml")` (line 207), on the character list. -/
def isYml (fn : String) : Bool :=
  List.isSuffixOf ['.', 'y', 'm', 'l'] fn.data

/-- `fn.replace(".yml", "")` (line 209): remove every occurrence of
".yml", scanning left to right, non-overlapping. -/
def replaceYml : List Char → List Char
  | '.' :: 'y' :: 'm' :: 'l' :: rest => replaceYml rest
  | c :: rest => c :: replaceYml rest
  | [] => []

/-- The profile name derived from a filename (line 209). -/
def stripYml (fn : String) : String :=
  String.mk (replaceYml fn.data)

/-- `name.startswith("_")` (line 213), on the character list. -/
def startsUnderscore (s : String) : Bool :=
  match s.data with
  | '_' :: _ => true
  | _ => false

/-- The profile-directory rescan (lines 206-219): each directory entry is
a filename together with the result of `load_profile_yaml` (outside the
verified module; `none` when parsing failed). Non-`.yml` files and failed
parses are skipped; names starting with an underscore become templates,
the rest profiles (first component); both keep directory order. -/
def classifyProfiles : List (String × Option Cfg) →
    List (String × Cfg) × List (String × Cfg)
  | [] => ([], [])
  | f :: rest =>
    if isYml f.1 then
      match f.2 with
      | some s =>
        if startsUnderscore (stripYml f.1) then
          ((classifyProfiles rest).1, (stripYml f.1, s) :: (classifyProfiles rest).2)
        else ((stripYml f.1, s) :: (classifyProfiles rest).1, (classifyProfiles rest).2)
      | none => classifyProfiles rest
    else classifyProfiles rest

/-- What C2's wording, read per pass, would require of the `prepare`
sequence: descending priority with ties broken by discovery order, i.e.
the stable sort by the reversed key. Stated from the spec's words, for
comparison with the order the code actually uses. -/
def specPrepareOrder (discovered : List Plugin) : List Plugin :=
  List.insertionSort (fun a b => b.priority ≤ a.priority) discovered


/-! ### Association-list lemmas -/

theorem lookup_cons_self {β : Type} (k : String) (v : β) (l : List (String × β)) :
    ((k, v) :: l).lookup k = some v := by
  simp [List.lookup_cons]

theorem lookup_cons_ne {β : Type} {k k2 : String} (h : k2 ≠ k) (v : β)
    (l : List (String × β)) : ((k, v) :: l).lookup k2 = l.lookup k2 := by
  simp [List.lookup_cons, beq_false_of_ne h]

theorem lookup_assocSet (l : List (String × CTree)) (k k2 : String) (v : CTree) :
    (assocSet l k v).lookup k2 = if k2 = k then some v else l.lookup k2 := by
  induction l with
  | nil =>
    by_cases h : k2 = k
    · subst h
      simp [assocSet, lookup_cons_self]
    · rw [show assocSet [] k v = [(k, v)] from rfl, lookup_cons_ne h, if_neg h]
  | cons e rest ih =>
    obtain ⟨ke, ve⟩ := e
    by_cases h1 : ke = k
    · subst h1
      by_cases h2 : k2 = ke
      · subst h2
        simp [assocSet, lookup_cons_self]
      · simp [assocSet, lookup_cons_ne h2, h2]
    · by_cases h2 : k2 = ke
      · subst h2
        have hne : ¬k2 = k := fun hc => h1 (hc ▸ rfl)
        simp [assocSet, h1, lookup_cons_self, hne]
      · simp [assocSet, h1, lookup_cons_ne h2, ih]

theorem lookup_assocSetCfg (l : List (String × Cfg)) (k k2 : String) (v : Cfg) :
    (assocSetCfg l k v).lookup k2 = if k2 = k then some v else l.lookup k2 := by
  induction l with
  | nil =>
    by_cases h : k2 = k
    · subst h
      simp [assocSetCfg, lookup_cons_self]
    · rw [show assocSetCfg [] k v = [(k, v)] from rfl, lookup_cons_ne h, if_neg h]
  | cons e rest ih =>
    obtain ⟨ke, ve⟩ := e
    by_cases h1 : ke = k
    · subst h1
      by_cases h2 : k2 = ke
      · subst h2
        simp [assocSetCfg, lookup_cons_self]
      · simp [assocSetCfg, lookup_cons_ne h2, h2]
    · by_cases h2 : k2 = ke
      · subst h2
        have hne : ¬k2 = k := fun hc => h1 (hc ▸ rfl)
        simp [assocSetCfg, h1, lookup_cons_self, hne]
      · simp [assocSetCfg, h1, lookup_cons_ne h2, ih]

theorem lookup_eq_none_of_not_mem_keys {β : Type} {l : List (String × β)} {k : String}
    (h : k ∉ l.map Prod.fst) : l.lookup k = none := by
  induction l with
  | nil => rfl
  | cons e rest ih =>
    obtain ⟨ke, ve⟩ := e
    simp only [List.map_cons, List.mem_cons] at h
    push_neg at h
    rw [lookup_cons_ne h.1]
    exact ih h.2

theorem lookup_append_single {β : Type} {l : List (String × β)} {k : String} {v : β}
    (h : l.lookup k = none) : (l ++ [(k, v)]).lookup k = some v := by
  induction l with
  | nil => exact lookup_cons_self k v []
  | cons e rest ih =>
    obtain ⟨ke, ve⟩ := e
    by_cases hke : k = ke
    · subst hke
      rw [lookup_cons_self] at h
      exact absurd h (by simp)
    · rw [List.cons_append, lookup_cons_ne hke]
      rw [lookup_cons_ne hke] at h
      exact ih h

/-! ### Merge lemmas -/

theorem lookup_updateEntries (upd : List (String × CTree)) :
    ∀ (old : List (String × CTree)) (k : String),
      (upd.map Prod.fst).Nodup →
      (updateEntries old upd).lookup k =
        match upd.lookup k with
        | some v =>
          match old.lookup k with
          | some v0 => some (updateTree v0 v)
          | none => some v
        | none => old.lookup k := by
  induction upd with
  | nil =>
    intro old k _
    cases h : old.lookup k <;> simp [updateEntries, h, List.lookup]
  | cons e rest ih =>
    intro old k hnd
    obtain ⟨ke, ve⟩ := e
    simp only [List.map_cons, List.nodup_cons] at hnd
    have hstep :
        updateEntries old ((ke, ve) :: rest) =
          updateEntries
            (assocSet old ke
              (match old.lookup ke with
               | some v0 => updateTree v0 ve
               | none => ve))
            rest := by
      simp [updateEntries]
    rw [hstep, ih _ k hnd.2]
    by_cases hk : k = ke
    · subst hk
      have hrest : rest.lookup k = none :=
        lookup_eq_none_of_not_mem_keys hnd.1
      rw [hrest, lookup_assocSet, if_pos rfl, lookup_cons_self]
      cases old.lookup k <;> rfl
    · rw [lookup_assocSet, if_neg hk, lookup_cons_ne hk]

theorem entriesWF_lookup {cs : List (String × CTree)} {k : String} {v : CTree}
    (hwf : entriesWF cs = true) (hl : cs.lookup k = some v) : treeWF v = true := by
  induction cs with
  | nil => simp [List.lookup] at hl
  | cons e rest ih =>
    obtain ⟨ke, ve⟩ := e
    simp only [entriesWF, Bool.and_eq_true] at hwf
    by_cases hke : k = ke
    · subst hke
      rw [lookup_cons_self] at hl
      cases hl
      exact hwf.1
    · rw [lookup_cons_ne hke] at hl
      exact ih hwf.2 hl

theorem getPath_eq_none_of_noLeafConflict :
    ∀ (p : List String) (t : CTree), noLeafConflict p t = true → getPath p t = none := by
  intro p
  induction p with
  | nil =>
    intro t h
    cases t <;> simp [noLeafConflict] at h
  | cons k rest ih =>
    intro t h
    cases t with
    | leaf v => simp [noLeafConflict] at h
    | node cs =>
      simp only [noLeafConflict] at h
      simp only [getPath]
      cases hl : cs.lookup k with
      | none => rfl
      | some t2 =>
        rw [hl] at h
        exact ih t2 h

/-- Key property of the recursive merge: a path that is absent from the
partial tree (and whose ancestors are not overwritten by scalars of the
partial tree) keeps its value from the original tree. -/
theorem getPath_updateTree_absent :
    ∀ (p : List String) (old upd : CTree), treeWF upd = true →
      noLeafConflict p upd = true →
      getPath p (updateTree old upd) = getPath p old := by
  intro p
  induction p with
  | nil =>
    intro old upd _ hc
    cases upd <;> simp [noLeafConflict] at hc
  | cons k rest ih =>
    intro old upd hwf hc
    cases upd with
    | leaf v => simp [noLeafConflict] at hc
    | node ucs =>
      simp only [noLeafConflict] at hc
      simp only [treeWF, Bool.and_eq_true, decide_eq_true_eq] at hwf
      cases old with
      | leaf v0 =>
        have hmerge : updateTree (CTree.leaf v0) (CTree.node ucs) = CTree.node ucs := by
          simp [updateTree]
        rw [hmerge]
        have hnone : getPath (k :: rest) (CTree.node ucs) = none :=
          getPath_eq_none_of_noLeafConflict _ _ (by simpa [noLeafConflict] using hc)
        rw [hnone]
        rfl
      | node ocs =>
        have hmerge :
            updateTree (CTree.node ocs) (CTree.node ucs) =
              CTree.node (updateEntries ocs ucs) := by
          simp [updateTree]
        rw [hmerge]
        simp only [getPath]
        rw [lookup_updateEntries ucs ocs k hwf.1]
        cases hu : ucs.lookup k with
        | none =>
          cases ho : ocs.lookup k <;> rfl
        | some v =>
          rw [hu] at hc
          cases ho : ocs.lookup k with
          | some v0 =>
            have hv : treeWF v = true := entriesWF_lookup hwf.2 hu
            have := ih v0 v hv hc
            simpa using this
          | none =>
            have hpn : getPath rest v = none :=
              getPath_eq_none_of_noLeafConflict _ _ hc
            simpa using hpn

/-! ### Event-processing lemmas -/

theorem settingsChanged_processEvent (s : EvState) (e : Event) :
    (processEvent s e).settingsChanged = true ↔
      (s.settingsChanged = true ∨ e = Event.settings) := by
  cases e with
  | settings => simp [processEvent]
  | profile n c =>
    cases h : s.profiles.lookup n <;> simp [processEvent, h]
  | apply n =>
    cases h : s.profiles.lookup n <;> simp [processEvent, h]
  | state c => simp [processEvent]
  | other t => simp [processEvent]

theorem settingsChanged_foldl (events : List Event) :
    ∀ s : EvState, (events.foldl processEvent s).settingsChanged = true ↔
      (s.settingsChanged = true ∨ Event.settings ∈ events) := by
  induction events with
  | nil => intro s; simp
  | cons e rest ih =>
    intro s
    rw [List.foldl_cons, ih, settingsChanged_processEvent]
    simp only [List.mem_cons]
    constructor
    · rintro ((hs | he) | hm)
      · exact Or.inl hs
      · exact Or.inr (Or.inl he.symm)
      · exact Or.inr (Or.inr hm)
    · rintro (hs | (he | hm))
      · exact Or.inl (Or.inl hs)
      · exact Or.inl (Or.inr he.symm)
      · exact Or.inr hm

theorem processEvent_apply_unknown {s : EvState} {n : String}
    (h : s.profiles.lookup n = none) : processEvent s (Event.apply n) = s := by
  simp [processEvent, h]

/-! ### Event-bus lemmas -/

theorem runBus_conservation :
    ∀ (ops : List BusOp) (buf : List Event),
      ((runBus buf ops).1).join ++ (runBus buf ops).2 =
        buf ++ (ops.map emittedOf).join := by
  intro ops
  induction ops with
  | nil => intro buf; simp [runBus]
  | cons op rest ih =>
    intro buf
    cases op with
    | emit e => simp [runBus, emittedOf, ih]
    | emitSeq es => simp [runBus, emittedOf, ih]
    | drain => simp [runBus, emittedOf, ih]

theorem runBus_first_drain :
    ∀ (pre : List BusOp) (buf : List Event) (post : List BusOp),
      (∀ op ∈ pre, op ≠ BusOp.drain) →
      runBus buf (pre ++ BusOp.drain :: post) =
        ((buf ++ (pre.map emittedOf).join) :: (runBus [] post).1,
          (runBus [] post).2) := by
  intro pre
  induction pre with
  | nil => intro buf post _; simp [runBus]
  | cons op rest ih =>
    intro buf post h
    have hrest : ∀ op2 ∈ rest, op2 ≠ BusOp.drain :=
      fun op2 hm => h op2 (List.mem_cons_of_mem op hm)
    cases op with
    | emit e =>
      have h1 : runBus buf ((BusOp.emit e :: rest) ++ BusOp.drain :: post) =
          runBus (buf ++ [e]) (rest ++ BusOp.drain :: post) := rfl
      rw [h1, ih _ _ hrest]
      simp [emittedOf]
    | emitSeq es =>
      have h1 : runBus buf ((BusOp.emitSeq es :: rest) ++ BusOp.drain :: post) =
          runBus (buf ++ es) (rest ++ BusOp.drain :: post) := rfl
      rw [h1, ih _ _ hrest]
      simp [emittedOf]
    | drain =>
      exact absurd rfl (h BusOp.drain (List.mem_cons_self _ _))

/-! ### Plugin-ordering lemmas -/

theorem filter_orderedInsert (p : Plugin) (c : Int) :
    ∀ l : List Plugin,
      (List.orderedInsert prioLE p l).filter (fun x => x.priority == c) =
        if p.priority = c then p :: l.filter (fun x => x.priority == c)
        else l.filter (fun x => x.priority == c) := by
  intro l
  induction l with
  | nil =>
    by_cases hp : p.priority = c
    · simp [List.orderedInsert, List.filter, hp]
    · simp [List.orderedInsert, List.filter, hp, beq_false_of_ne hp]
  | cons q t ih =>
    by_cases hle : prioLE p q
    · rw [List.orderedInsert_of_le _ _ hle]
      by_cases hp : p.priority = c <;>
        simp [List.filter_cons, hp]
    · simp only [List.orderedInsert, if_neg hle]
      have hlt : q.priority < p.priority := by
        simp only [prioLE] at hle
        omega
      rw [List.filter_cons, ih]
      by_cases hp : p.priority = c
      · have hq : ¬(q.priority = c) := by omega
        simp [hp, hq, List.filter_cons]
      · simp [hp, List.filter_cons]

theorem sortPlugins_stable (l : List Plugin) (c : Int) :
    (sortPlugins l).filter (fun x => x.priority == c) =
      l.filter (fun x => x.priority == c) := by
  induction l with
  | nil => rfl
  | cons p t ih =>
    simp only [sortPlugins, List.insertionSort] at ih ⊢
    rw [filter_orderedInsert, ih]
    by_cases hp : p.priority = c <;> simp [hp, List.filter_cons]

/-! ### Profile-scan lemmas -/

theorem classify_profiles_no_underscore :
    ∀ (files : List (String × Option Cfg)) (pr : String × Cfg),
      pr ∈ (classifyProfiles files).1 → startsUnderscore pr.1 = false := by
  intro files
  induction files with
  | nil => intro pr h; simp [classifyProfiles] at h
  | cons f rest ih =>
    obtain ⟨fname, fopt⟩ := f
    intro pr h
    by_cases hy : isYml fname = true
    · cases fopt with
      | some s =>
        by_cases hu : startsUnderscore (stripYml fname) = true
        · simp only [classifyProfiles, if_pos hy, if_pos hu] at h
          exact ih pr h
        · simp only [classifyProfiles, if_pos hy, if_neg hu] at h
          rcases List.mem_cons.mp h with he | hm
          · rw [he]
            simpa using hu
          · exact ih pr hm
      | none =>
        simp only [classifyProfiles, if_pos hy] at h
        exact ih pr h
    · simp only [classifyProfiles, if_neg hy] at h
      exact ih pr h

theorem classify_template_mem :
    ∀ (files : List (String × Option Cfg)) (fn : String) (s : Cfg),
      (fn, some s) ∈ files → isYml fn = true →
      startsUnderscore (stripYml fn) = true →
      (stripYml fn, s) ∈ (classifyProfiles files).2 := by
  intro files
  induction files with
  | nil => intro fn s h; simp at h
  | cons f rest ih =>
    obtain ⟨fname, fopt⟩ := f
    intro fn s hm hy hu
    rcases List.mem_cons.mp hm with he | hr
    · cases he
      simp only [classifyProfiles, if_pos hy, if_pos hu]
      exact List.mem_cons_self _ _
    · have hmem := ih fn s hr hy hu
      by_cases hy2 : isYml fname = true
      · cases fopt with
        | some s2 =>
          by_cases hu2 : startsUnderscore (stripYml fname) = true
          · simp only [classifyProfiles, if_pos hy2, if_pos hu2]
            exact List.mem_cons_of_mem _ hmem
          · simp only [classifyProfiles, if_pos hy2, if_neg hu2]
            exact hmem
        | none =>
          simp only [classifyProfiles, if_pos hy2]
          exact hmem
      · simp only [classifyProfiles, if_neg hy2]
        exact hmem

theorem lookup_none_of_all_non_underscore {prof : List (String × Cfg)} {n : String}
    (hall : ∀ pr ∈ prof, startsUnderscore pr.1 = false)
    (hn : startsUnderscore n = true) : prof.lookup n = none := by
  apply lookup_eq_none_of_not_mem_keys
  intro hmem
  rcases List.mem_map.mp hmem with ⟨pr, hpr, hfst⟩
  have := hall pr hpr
  rw [hfst] at this
  rw [this] at hn
  exact Bool.false_ne_true hn

/-! ### Shutdown lemmas -/

theorem closeAll_no_failure (closeRaises : String → Bool) :
    ∀ plugins : List Plugin, (∀ p ∈ plugins, closeRaises p.name = false) →
      closeAll closeRaises plugins =
        (plugins.map fun p => PluginCall.close p.name, false) := by
  intro plugins
  induction plugins with
  | nil => intro _; rfl
  | cons p rest ih =>
    intro h
    have hp : closeRaises p.name = false := h p (List.mem_cons_self p rest)
    simp [closeAll, hp, ih (fun q hq => h q (List.mem_cons_of_mem p hq))]

/-! ### Claim theorems -/

/-- C1: for every generation whose drained event batch contains at least
one Settings event, no plugin's prepare or update is invoked during that
generation (the invocation trace is empty), and the reinitialize flag is
set when the generation ends, so no plugin runs against a schema it just
invalidated. -/
theorem c1_settings_event_skips_plugins_and_sets_flag
    (validate : Cfg → Cfg) (sortedPlugins : List Plugin) (wrote : String → Bool)
    (s : LoopState) (events : List Event) (h : Event.settings ∈ events) :
    (runGeneration validate sortedPlugins wrote s events).calls = [] ∧
    (runGeneration validate sortedPlugins wrote s events).state.shouldInitialize = true := by
  have hsc : (events.foldl processEvent ⟨s.conf, s.profiles, false⟩).settingsChanged = true :=
    (settingsChanged_foldl events _).mpr (Or.inr h)
  constructor
  · simp [runGeneration, hsc]
  · simp [runGeneration, hsc]

/-- Witness for C1 at a concrete generation containing a Settings event. -/
theorem c1_witness :
    Event.settings ∈ [Event.settings] ∧
    (runGeneration (fun c => c) [⟨"a", 1⟩] (fun _ => true)
        ⟨[], [], [], false⟩ [Event.settings]).calls = [] ∧
    (runGeneration (fun c => c) [⟨"a", 1⟩] (fun _ => true)
        ⟨[], [], [], false⟩ [Event.settings]).state.shouldInitialize = true := by
  have h : Event.settings ∈ [Event.settings] := List.mem_singleton.mpr rfl
  have hmain := c1_settings_event_skips_plugins_and_sets_flag
    (fun c => c) [⟨"a", 1⟩] (fun _ => true) ⟨[], [], [], false⟩ [Event.settings] h
  exact ⟨h, hmain.1, hmain.2⟩

/-- C2: in every generation that runs plugins, the invocations are the
fixed ascending stable sort of the discovered plugins: `update` runs over
it in order (ascending priority, ties in discovery order) and `prepare`
runs over its exact reverse (descending priority). The order is a
permutation of the discovered set, computed once from it, sorted
ascending for `update`, descending for `prepare`, and stable: plugins of
equal priority keep their discovery order in the sort. -/
theorem c2_plugin_invocation_order
    (discovered : List Plugin) (validate : Cfg → Cfg) (wrote : String → Bool)
    (s : LoopState) (events : List Event) (h : Event.settings ∉ events) :
    (runGeneration validate (sortPlugins discovered) wrote s events).calls =
        ((sortPlugins discovered).reverse.map fun p => PluginCall.prepare p.name) ++
          ((sortPlugins discovered).map fun p => PluginCall.update p.name) ∧
    List.Pairwise prioLE (sortPlugins discovered) ∧
    List.Pairwise (fun a b => prioLE b a) (sortPlugins discovered).reverse ∧
    (sortPlugins discovered).Perm discovered ∧
    (∀ c : Int, (sortPlugins discovered).filter (fun x => x.priority == c) =
      discovered.filter (fun x => x.priority == c)) := by
  have hne : ¬((events.foldl processEvent ⟨s.conf, s.profiles, false⟩).settingsChanged = true) := by
    rw [settingsChanged_foldl]
    simp [h]
  have hsc : (events.foldl processEvent ⟨s.conf, s.profiles, false⟩).settingsChanged = false :=
    Bool.not_eq_true _ ▸ hne
  refine ⟨?_, ?_, ?_, ?_, ?_⟩
  · simp [runGeneration, hsc]
  · exact List.sorted_insertionSort prioLE discovered
  · exact List.pairwise_reverse.mpr (List.sorted_insertionSort prioLE discovered)
  · exact List.perm_insertionSort prioLE discovered
  · exact sortPlugins_stable discovered

/-- Witness for C2 at the spec's example priorities [10, 5, 20]: `update`
runs in priority order 5, 10, 20 and `prepare` in 20, 10, 5. -/
theorem c2_witness :
    Event.settings ∉ ([] : List Event) ∧
    (runGeneration (fun c => c) (sortPlugins [⟨"a", 10⟩, ⟨"b", 5⟩, ⟨"c", 20⟩])
        (fun _ => false) ⟨[], [], [], false⟩ []).calls =
      [PluginCall.prepare "c", PluginCall.prepare "a", PluginCall.prepare "b",
        PluginCall.update "b", PluginCall.update "a", PluginCall.update "c"] := by
  have h : Event.settings ∉ ([] : List Event) := List.not_mem_nil _
  have hmain := (c2_plugin_invocation_order [⟨"a", 10⟩, ⟨"b", 5⟩, ⟨"c", 20⟩]
    (fun c => c) (fun _ => false) ⟨[], [], [], false⟩ [] h).1
  exact ⟨h, by rw [hmain]; rfl⟩

/-- C3: the event bus is FIFO with no loss and no duplication. For any
serialized interleaving of bus operations (the lock in `EmitHolder` makes
every emit and drain atomic): (a) conservation: the concatenation of all
drain results followed by the final buffer equals the initial buffer
followed by all emitted events in emission order, with the internal order
of each emitted sequence preserved; (b) a drain returns exactly the
events emitted since the previous drain (equivalently since the start),
in emission order, and leaves the buffer empty for the rest of the run. -/
theorem c3_event_bus_fifo (ops pre post : List BusOp) (buf buf2 : List Event)
    (h : ∀ op ∈ pre, op ≠ BusOp.drain) :
    (((runBus buf2 ops).1).join ++ (runBus buf2 ops).2 =
        buf2 ++ (ops.map emittedOf).join) ∧
    runBus buf (pre ++ BusOp.drain :: post) =
      ((buf ++ (pre.map emittedOf).join) :: (runBus [] post).1,
        (runBus [] post).2) :=
  ⟨runBus_conservation ops buf2, runBus_first_drain pre buf post h⟩

/-- Witness for C3: two producers' emissions (one single event, one
sequence) are drained as one batch in emission order. -/
theorem c3_witness :
    (∀ op ∈ [BusOp.emit Event.settings,
        BusOp.emitSeq [Event.apply "a", Event.apply "b"]], op ≠ BusOp.drain) ∧
    runBus [] ([BusOp.emit Event.settings,
        BusOp.emitSeq [Event.apply "a", Event.apply "b"]] ++ BusOp.drain :: []) =
      ([[Event.settings, Event.apply "a", Event.apply "b"]], []) := by
  have h : ∀ op ∈ [BusOp.emit Event.settings,
      BusOp.emitSeq [Event.apply "a", Event.apply "b"]], op ≠ BusOp.drain := by
    intro op hop
    rcases List.mem_cons.mp hop with he | hop2
    · rw [he]
      intro hc
      exact BusOp.noConfusion hc
    · rcases List.mem_cons.mp hop2 with he2 | hop3
      · rw [he2]
        intro hc
        exact BusOp.noConfusion hc
      · exact absurd hop3 (List.not_mem_nil op)
  have hmain := (c3_event_bus_fifo [] [BusOp.emit Event.settings,
    BusOp.emitSeq [Event.apply "a", Event.apply "b"]] [] [] [] h).2
  exact ⟨h, by rw [hmain]; rfl⟩

/-- C4 counterexample: with two opened plugins whose first close raises,
the shutdown unwind performs only the first close; the exception escapes
(the boolean is `true`) and the second plugin's close is never invoked,
refuting "a failure raised by any plugin's close() is logged and
swallowed, never escalated and never preventing the remaining plugins
from being closed". -/
theorem c4_counterexample :
    closeAll (fun n => n == "p1") [⟨"p1", 0⟩, ⟨"p2", 0⟩] =
        ([PluginCall.close "p1"], true) ∧
    PluginCall.close "p2" ∉ (closeAll (fun n => n == "p1") [⟨"p1", 0⟩, ⟨"p2", 0⟩]).1 := by
  constructor
  · rfl
  · decide

/-- C4 (amended): during shutdown, close() is invoked in discovery order
on every discovered plugin as long as no close raises; when no close
raises, every plugin is closed exactly once and no exception escapes. A
raising close, however, propagates out of the unwind and prevents the
remaining plugins from being closed. -/
theorem c4_close_unwind (closeRaises : String → Bool) (plugins : List Plugin)
    (h : ∀ p ∈ plugins, closeRaises p.name = false) :
    closeAll closeRaises plugins =
      (plugins.map fun p => PluginCall.close p.name, false) :=
  closeAll_no_failure closeRaises plugins h

/-- Witness for C4's amended theorem: both plugins closed, in order, no
escape, when no close raises. -/
theorem c4_witness :
    closeAll (fun _ => false) [⟨"p1", 0⟩, ⟨"p2", 0⟩] =
      ([PluginCall.close "p1", PluginCall.close "p2"], false) := by
  have hmain := c4_close_unwind (fun _ => false) [⟨"p1", 0⟩, ⟨"p2", 0⟩]
    (fun p _ => rfl)
  rw [hmain]
  rfl

/-- C5 counterexample: a blocking `get_events` (timeout 0 is not the
non-blocking sentinel -1) on an empty buffer whose single wait is woken
with no emitted events (the signal handlers notify the same condition
variable without emitting, and `wait` is not re-checked in a loop)
returns the empty sequence, refuting "a blocking get_events never
returns an empty sequence". -/
theorem c5_counterexample :
    ((0 : Int) ≠ -1) ∧ (get_events [] 0 []).1 = [] :=
  ⟨by decide, rfl⟩

/-- C5 (amended): `get_events` always leaves the buffer empty; a call
with a non-empty buffer returns it immediately; a blocking call on an
empty buffer waits once and returns exactly the events that arrived
before the wakeup — which is non-empty if the wakeup was caused by an
emit, but may be empty when the notification came from a signal handler
or a spurious wakeup. -/
theorem c5_blocking_drain (buf arrivals : List Event) (timeout : Int) :
    (get_events buf timeout arrivals).2 = [] ∧
    (buf ≠ [] → get_events buf timeout arrivals = (buf, [])) ∧
    (buf = [] → timeout ≠ -1 → (get_events buf timeout arrivals).1 = arrivals) ∧
    (buf = [] → timeout ≠ -1 → arrivals ≠ [] →
      (get_events buf timeout arrivals).1 ≠ []) := by
  refine ⟨?_, ?_, ?_, ?_⟩
  · unfold get_events
    split <;> rfl
  · intro hb
    unfold get_events
    have : buf.isEmpty = false := by
      cases buf
      · exact absurd rfl hb
      · rfl
    simp [this]
  · intro hb ht
    subst hb
    simp [get_events, bne_iff_ne, ht]
  · intro hb ht ha
    subst hb
    simp [get_events, bne_iff_ne, ht, ha]

/-- Witness for C5's amended theorem at concrete inputs: non-empty buffer
returned as-is without waiting, and a blocking wait woken by an emit
returns that event. -/
theorem c5_witness :
    ([Event.settings] ≠ ([] : List Event) ∧
      get_events [Event.settings] (-1) [] = ([Event.settings], [])) ∧
    (([] : List Event) = [] ∧ (5 : Int) ≠ -1 ∧
      (get_events [] 5 [Event.apply "x"]).1 = [Event.apply "x"]) := by
  constructor
  · have h : [Event.settings] ≠ ([] : List Event) := by simp
    exact ⟨h, (c5_blocking_drain [Event.settings] [] (-1)).2.1 h⟩
  · have ht : (5 : Int) ≠ -1 := by decide
    exact ⟨rfl, ht, (c5_blocking_drain [] [Event.apply "x"] 5).2.2.1 rfl ht⟩

/-- C6: at reinitialization, when the state-file load fails the daemon
keeps the previous in-memory config if it is non-empty, and otherwise
synthesizes the defaults from Settings; when the load succeeds, the
loaded config replaces the previous one. -/
theorem c6_state_reload_fallback (prev defaults c : Cfg) :
    reloadState (some c) prev defaults = c ∧
    (prev ≠ [] → reloadState none prev defaults = prev) ∧
    reloadState none [] defaults = defaults := by
  refine ⟨rfl, ?_, rfl⟩
  intro h
  have : prev.isEmpty = false := by
    cases prev
    · exact absurd rfl h
    · rfl
  simp [reloadState, this]

/-- Witness for C6 at concrete configs. -/
theorem c6_witness :
    reloadState (some [("a", CTree.leaf 2)]) [("b", CTree.leaf 1)] [] =
        [("a", CTree.leaf 2)] ∧
    ([("b", CTree.leaf 1)] ≠ ([] : Cfg) ∧
      reloadState none [("b", CTree.leaf 1)] [] = [("b", CTree.leaf 1)]) ∧
    reloadState none [] [("d", CTree.leaf 3)] = [("d", CTree.leaf 3)] := by
  have h : [("b", CTree.leaf 1)] ≠ ([] : Cfg) := by simp
  have hmain := c6_state_reload_fallback [("b", CTree.leaf 1)] [] [("a", CTree.leaf 2)]
  have hmain2 := c6_state_reload_fallback [] [("d", CTree.leaf 3)] []
  exact ⟨hmain.1, ⟨h, hmain.2.1 h⟩, hmain2.2.2⟩

/-- C7: a `Profile{name, config}` event merges the payload recursively
into the existing config when the name is known — and every path that is
absent from the payload (and whose ancestors the payload does not
overwrite with a scalar) keeps its previous value — while an unknown name
inserts the payload fresh at the end of the profiles map (the shared
profiles lock of the source serializes the structural insert; the
well-formedness hypothesis says the payload has no duplicate keys, which
is always true of a Python dict). -/
theorem c7_profile_event_upsert (s : EvState) (n : String) (c old : Cfg) :
    (s.profiles.lookup n = some old →
      (processEvent s (Event.profile n c)).profiles.lookup n =
          some (updateEntries old c) ∧
      (∀ p : List String, treeWF (CTree.node c) = true →
        noLeafConflict p (CTree.node c) = true →
        getPath p (CTree.node (updateEntries old c)) = getPath p (CTree.node old))) ∧
    (s.profiles.lookup n = none →
      (processEvent s (Event.profile n c)).profiles = s.profiles ++ [(n, c)] ∧
      (processEvent s (Event.profile n c)).profiles.lookup n = some c) := by
  constructor
  · intro h
    constructor
    · simp only [processEvent, h]
      rw [lookup_assocSetCfg]
      simp
    · intro p hwf hc
      have hmain := getPath_updateTree_absent p (CTree.node old) (CTree.node c) hwf hc
      have hstep : updateTree (CTree.node old) (CTree.node c) =
          CTree.node (updateEntries old c) := by
        simp [updateTree]
      rw [hstep] at hmain
      exact hmain
  · intro h
    constructor
    · simp [processEvent, h]
    · simp only [processEvent, h]
      exact lookup_append_single h

/-- Witness for C7 at the spec's scenario: profile "racer" holds a leaf
at "x"; a payload with the disjoint leaf "y" merges rather than replaces,
leaving "x" intact. -/
theorem c7_witness :
    List.lookup "racer" [("racer", [("x", CTree.leaf 1)])] =
        some [("x", CTree.leaf 1)] ∧
    (processEvent ⟨[], [("racer", [("x", CTree.leaf 1)])], false⟩
        (Event.profile "racer" [("y", CTree.leaf 2)])).profiles.lookup "racer" =
      some (updateEntries [("x", CTree.leaf 1)] [("y", CTree.leaf 2)]) ∧
    getPath ["x"] (CTree.node (updateEntries [("x", CTree.leaf 1)] [("y", CTree.leaf 2)])) =
      getPath ["x"] (CTree.node [("x", CTree.leaf 1)]) := by
  have h : List.lookup "racer" [("racer", [("x", CTree.leaf 1)])] =
      some [("x", CTree.leaf 1)] := rfl
  have hmain := (c7_profile_event_upsert
    ⟨[], [("racer", [("x", CTree.leaf 1)])], false⟩ "racer"
    [("y", CTree.leaf 2)] [("x", CTree.leaf 1)]).1 h
  refine ⟨h, hmain.1, hmain.2 ["x"] ?_ ?_⟩
  · simp [treeWF, entriesWF]
  · rfl

/-- C8 counterexample: the profile file `_foo.yml` loads as a template
(it is excluded from the profiles map), yet the save phase of the
following generation writes only the state file and the reserved
`_template.yml` — `_foo.yml` is not among the files saved, refuting
"every such template is still persisted during the save phase". -/
theorem c8_counterexample :
    (classifyProfiles [("_foo.yml", some [("x", CTree.leaf 1)])]).1 = [] ∧
    ((classifyProfiles [("_foo.yml", some [("x", CTree.leaf 1)])]).2).map Prod.fst =
        ["_foo"] ∧
    (runGeneration (fun c => c) [] (fun _ => false)
        ⟨[], (classifyProfiles [("_foo.yml", some [("x", CTree.leaf 1)])]).1,
          (classifyProfiles [("_foo.yml", some [("x", CTree.leaf 1)])]).2, false⟩
        []).saves = ["state.yml", "_template.yml"] ∧
    "_foo.yml" ∉ ["state.yml", "_template.yml"] := by
  refine ⟨rfl, rfl, rfl, by decide⟩

/-- C8 (amended): a profile file whose derived name starts with "_" loads
as a template, is excluded from the profiles map and hence from
name-based Apply lookup (an Apply event for any "_"-name is a no-op); the
save phase writes the state file, one file per (non-template) profile,
and always the reserved `_template.yml` — but no other template file. -/
theorem c8_templates_excluded (files : List (String × Option Cfg)) (fn n : String)
    (s0 : Cfg) (validate : Cfg → Cfg) (sortedPlugins : List Plugin)
    (wrote : String → Bool) (conf : Cfg) (b : Bool)
    (hm : (fn, some s0) ∈ files) (hy : isYml fn = true)
    (hu : startsUnderscore (stripYml fn) = true) (hn : startsUnderscore n = true) :
    (stripYml fn, s0) ∈ (classifyProfiles files).2 ∧
    (classifyProfiles files).1.lookup (stripYml fn) = none ∧
    processEvent ⟨conf, (classifyProfiles files).1, b⟩ (Event.apply n) =
      ⟨conf, (classifyProfiles files).1, b⟩ ∧
    (runGeneration validate sortedPlugins wrote
        ⟨conf, (classifyProfiles files).1, (classifyProfiles files).2, b⟩ []).saves =
      "state.yml" :: (((classifyProfiles files).1.map fun pr => pr.1 ++ ".yml") ++
        ["_template.yml"]) ∧
    "_template.yml" ∈ (runGeneration validate sortedPlugins wrote
        ⟨conf, (classifyProfiles files).1, (classifyProfiles files).2, b⟩ []).saves := by
  refine ⟨?_, ?_, ?_, ?_, ?_⟩
  · exact classify_template_mem files fn s0 hm hy hu
  · exact lookup_none_of_all_non_underscore
      (classify_profiles_no_underscore files) hu
  · exact processEvent_apply_unknown
      (lookup_none_of_all_non_underscore (classify_profiles_no_underscore files) hn)
  · rfl
  · simp [runGeneration]

/-- Witness for C8's amended theorem on a concrete directory containing
one template file and one ordinary profile file. -/
theorem c8_witness :
    ("_bar.yml", some [("x", CTree.leaf 1)]) ∈
        [("_bar.yml", some [("x", CTree.leaf 1)]), ("racer.yml", some [("y", CTree.leaf 2)])] ∧
    isYml "_bar.yml" = true ∧
    startsUnderscore (stripYml "_bar.yml") = true ∧
    ("_bar", [("x", CTree.leaf 1)]) ∈
      (classifyProfiles [("_bar.yml", some [("x", CTree.leaf 1)]),
        ("racer.yml", some [("y", CTree.leaf 2)])]).2 ∧
    (classifyProfiles [("_bar.yml", some [("x", CTree.leaf 1)]),
        ("racer.yml", some [("y", CTree.leaf 2)])]).1.lookup "_bar" = none ∧
    (runGeneration (fun c => c) [] (fun _ => false)
        ⟨[], (classifyProfiles [("_bar.yml", some [("x", CTree.leaf 1)]),
            ("racer.yml", some [("y", CTree.leaf 2)])]).1,
          (classifyProfiles [("_bar.yml", some [("x", CTree.leaf 1)]),
            ("racer.yml", some [("y", CTree.leaf 2)])]).2, false⟩ []).saves =
      ["state.yml", "racer.yml", "_template.yml"] := by
  have hm : ("_bar.yml", some [("x", CTree.leaf 1)]) ∈
      [("_bar.yml", some [("x", CTree.leaf 1)]), ("racer.yml", some [("y", CTree.leaf 2)])] :=
    List.mem_cons_self _ _
  have hmain := c8_templates_excluded
    [("_bar.yml", some [("x", CTree.leaf 1)]), ("racer.yml", some [("y", CTree.leaf 2)])]
    "_bar.yml" "_bar" [("x", CTree.leaf 1)] (fun c => c) [] (fun _ => false) [] false
    hm rfl rfl rfl
  refine ⟨hm, rfl, rfl, ?_, ?_, ?_⟩
  · exact hmain.1
  · exact hmain.2.1
  · rw [hmain.2.2.2.1]
    rfl

/-- C9: the proactive clear of the reinitialize flag after the save phase
executes exactly when something was actually written during this
generation and the flag was not already set before saving began — in
particular a reinitialize request raised by a Settings event in the same
generation makes `has_new` true, so it is never absorbed by the
self-trigger suppression and the flag survives the generation. -/
theorem c9_self_trigger_suppression
    (validate : Cfg → Cfg) (sortedPlugins : List Plugin) (wrote : String → Bool)
    (s : LoopState) (events : List Event) :
    ((runGeneration validate sortedPlugins wrote s events).clearedSelf = true ↔
      ((runGeneration validate sortedPlugins wrote s events).saved = true ∧
        (runGeneration validate sortedPlugins wrote s events).hasNew = false)) ∧
    (Event.settings ∈ events →
      (runGeneration validate sortedPlugins wrote s events).clearedSelf = false ∧
      (runGeneration validate sortedPlugins wrote s events).state.shouldInitialize = true) := by
  constructor
  · simp only [runGeneration]
    constructor
    · intro h
      exact ⟨(Bool.and_eq_true _ _).mp h |>.2,
        by simpa using ((Bool.and_eq_true _ _).mp h).1⟩
    · intro ⟨h1, h2⟩
      simp [h1, h2]
  · intro h
    have hsc : (events.foldl processEvent ⟨s.conf, s.profiles, false⟩).settingsChanged = true :=
      (settingsChanged_foldl events _).mpr (Or.inr h)
    constructor
    · simp [runGeneration, hsc]
    · simp [runGeneration, hsc]

/-- Witness for C9: a Settings event in a generation that writes files
leaves the flag set (the suppression does not fire), while the same
generation without the Settings event clears its own self-trigger. -/
theorem c9_witness :
    (Event.settings ∈ [Event.settings] ∧
      (runGeneration (fun c => c) [] (fun _ => true)
          ⟨[], [], [], false⟩ [Event.settings]).clearedSelf = false ∧
      (runGeneration (fun c => c) [] (fun _ => true)
          ⟨[], [], [], false⟩ [Event.settings]).state.shouldInitialize = true) ∧
    ((runGeneration (fun c => c) [] (fun _ => true)
        ⟨[], [], [], false⟩ []).clearedSelf = true ↔
      ((runGeneration (fun c => c) [] (fun _ => true)
          ⟨[], [], [], false⟩ []).saved = true ∧
        (runGeneration (fun c => c) [] (fun _ => true)
          ⟨[], [], [], false⟩ []).hasNew = false)) := by
  have h : Event.settings ∈ [Event.settings] := List.mem_singleton.mpr rfl
  have hmain := (c9_self_trigger_suppression (fun c => c) [] (fun _ => true)
    ⟨[], [], [], false⟩ [Event.settings]).2 h
  have hmain2 := (c9_self_trigger_suppression (fun c => c) [] (fun _ => true)
    ⟨[], [], [], false⟩ []).1
  exact ⟨⟨h, hmain.1, hmain.2⟩, hmain2⟩

/-- C10: an `Apply{name}` event whose name is not in the profiles map is
silently discarded: the dispatch takes the no-op branch (no exception is
possible there), leaving the live config and the whole event-processing
state unchanged. -/
theorem c10_apply_unknown_discarded (s : EvState) (n : String)
    (h : s.profiles.lookup n = none) :
    processEvent s (Event.apply n) = s :=
  processEvent_apply_unknown h

/-- Witness for C10 at a concrete unknown profile name. -/
theorem c10_witness :
    List.lookup "nope" [("x", ([] : Cfg))] = none ∧
    processEvent ⟨[("c", CTree.leaf 7)], [("x", ([] : Cfg))], false⟩ (Event.apply "nope") =
      ⟨[("c", CTree.leaf 7)], [("x", ([] : Cfg))], false⟩ := by
  have h : List.lookup "nope" [("x", ([] : Cfg))] = none := rfl
  exact ⟨h, c10_apply_unknown_discarded
    ⟨[("c", CTree.leaf 7)], [("x", ([] : Cfg))], false⟩ "nope" h⟩
